import Mathlib

/-!
Verification of the delimited-section editor of `YT-Affiliate-Updater.py` and of
the snapshot/upsert logic of `backup_descriptions.py`, over a shallow embedding:
description bodies are `List Char`, the SQLite store is a list of rows, the
remote document source is an explicit oracle argument.
-/

namespace YTUpd

/-- Characters removed by Python `str.strip()` / `lstrip()` / `rstrip()`
(the whitespace characters of the Latin-1 range). -/
def pyIsSpace (c : Char) : Bool :=
  c = ' ' || c = '\t' || c = '\n' || c = '\r' || c = '\x0b' || c = '\x0c' ||
  c = '\x1c' || c = '\x1d' || c = '\x1e' || c = '\x1f' || c = '\x85' || c = '\u00A0'

/-- Python `s.lstrip()`. -/
def lstripL (s : List Char) : List Char := s.dropWhile pyIsSpace

/-- Python `s.rstrip()`. -/
def rstripL (s : List Char) : List Char := s.rdropWhile pyIsSpace

/-- Python `s.strip()` (strip both ends). -/
def stripL (s : List Char) : List Char := lstripL (rstripL s)

/-- Index of the leftmost occurrence of the literal `pat` in `s`
(`none` when `pat` does not occur). -/
def findOcc (pat : List Char) : List Char → Option Nat
  | [] => if pat.isPrefixOf ([] : List Char) then some 0 else none
  | c :: rest =>
    if pat.isPrefixOf (c :: rest) then some 0 else (findOcc pat rest).map (· + 1)

/-- `START_DELIMITER` of YT-Affiliate-Updater.py: fourteen tildes. -/
def START_DELIMITER : List Char := "~~~~~~~~~~~~~~".toList

/-- `END_DELIMITER` of YT-Affiliate-Updater.py: the same fourteen tildes. -/
def END_DELIMITER : List Char := "~~~~~~~~~~~~~~".toList

/-- The match of the regex `re.escape(START)(.*?)re.escape(END)` with `re.DOTALL`,
as a pair (index of the start of the `START` marker, index of the start of the
`END` marker).  `re.search` returns the leftmost match: a match starting at `p`
exists iff the delimiter occurs at `p` and again at some `q ≥ p + 14`; since the
two delimiter literals are equal, if the first delimiter occurrence `i` admits
no second occurrence at `≥ i + 14` then no later start position does either.
Hence the leftmost match starts at the first occurrence `i`, and the non-greedy
`(.*?)` places the `END` marker at the first occurrence at `≥ i + 14`. -/
def findSection (s : List Char) : Option (Nat × Nat) :=
  match findOcc START_DELIMITER s with
  | none => none
  | some i =>
    match findOcc END_DELIMITER (s.drop (i + START_DELIMITER.length)) with
    | none => none
    | some k => some (i, i + START_DELIMITER.length + k)

/-- `extract_affiliate_section` (YT-Affiliate-Updater.py lines 92-99):
`match.group(1).strip()` when the pattern matches, else `None`. -/
def extract_affiliate_section (description : List Char) : Option (List Char) :=
  match findSection description with
  | some (i, j) =>
    some (stripL ((description.drop (i + START_DELIMITER.length)).take
      (j - (i + START_DELIMITER.length))))
  | none => none

/-- `split_description_around_affiliate_section` (lines 101-114):
`(before.rstrip(), group(1).strip(), after.lstrip())` around the match,
or `(description.rstrip(), None, "")` when there is no match. -/
def split_description_around_affiliate_section (description : List Char) :
    List Char × Option (List Char) × List Char :=
  match findSection description with
  | some (i, j) =>
    (rstripL (description.take i),
     some (stripL ((description.drop (i + START_DELIMITER.length)).take
       (j - (i + START_DELIMITER.length)))),
     lstripL (description.drop (j + END_DELIMITER.length)))
  | none => (rstripL description, none, [])

/-- `add_affiliate_section` (lines 125-141): rebuild the description as
`before + "\n\n" + START + "\n" + content + "\n" + END`, then append
`"\n\n" + after` only when `after` is non-empty (Python truthiness). -/
def add_affiliate_section (description affiliate_content : List Char) : List Char :=
  let parts := split_description_around_affiliate_section description
  parts.1 ++ '\n' :: '\n' :: START_DELIMITER ++ '\n' :: affiliate_content ++
    '\n' :: END_DELIMITER ++
    (if parts.2.2 = [] then [] else '\n' :: '\n' :: parts.2.2)

/-- Replacement text for one maximal run of `k` newlines under
`re.sub(r"\n{3,}", "\n\n", ·)`: runs of three or more collapse to two. -/
def emitNl (k : Nat) : List Char :=
  if 3 ≤ k then ['\n', '\n'] else List.replicate k '\n'

/-- Scanner for `re.sub(r"\n{3,}", "\n\n", ·)`; `k` counts the pending run of
newlines already consumed. -/
def collapseAux : Nat → List Char → List Char
  | k, [] => emitNl k
  | k, c :: rest =>
    if c = '\n' then collapseAux (k + 1) rest
    else emitNl k ++ c :: collapseAux 0 rest

/-- `re.sub(r"\n{3,}", "\n\n", s)`: every maximal run of three or more
consecutive newlines becomes exactly two. -/
def collapseNewlines (s : List Char) : List Char := collapseAux 0 s

/-- `re.sub(pattern, '', description)` for the section pattern: delete every
successive leftmost non-overlapping `START…END` span (fuel-indexed; the fuel
`s.length + 1` of `removeSpans` always suffices since each deletion removes at
least the two 14-character markers). -/
def removeSpansFuel : Nat → List Char → List Char
  | 0, s => s
  | fuel + 1, s =>
    match findSection s with
    | none => s
    | some (i, j) =>
      s.take i ++ removeSpansFuel fuel (s.drop (j + END_DELIMITER.length))

/-- All `START…END` spans deleted, as `re.sub` does. -/
def removeSpans (s : List Char) : List Char := removeSpansFuel (s.length + 1) s

/-- `remove_affiliate_section` (lines 116-123): delete the spans, then
`re.sub(r"\n{3,}", "\n\n", cleaned.strip())`. -/
def remove_affiliate_section (description : List Char) : List Char :=
  collapseNewlines (stripL (removeSpans description))

/-- The `snippet` of a fetched video, as used by
`update_video_affiliate_links` (YT-Affiliate-Updater.py lines 143-194).
`tags` is `none` when the fetched snippet has no `tags` key;
`defaultLanguage` is `none` when absent (the empty string is kept as
`some []`, matching Python where `.get` can return `""`). -/
structure Snippet where
  title : List Char
  description : List Char
  tags : Option (List (List Char))
  categoryId : List Char
  defaultLanguage : Option (List Char)
  deriving DecidableEq

/-- The `snippet` part of the `update_data` body written back by
`update_video_affiliate_links`. -/
structure UpdateSnippet where
  title : List Char
  description : List Char
  tags : List (List Char)
  categoryId : List Char
  defaultLanguage : Option (List Char)
  deriving DecidableEq

/-- Construction of `update_data['snippet']` in `update_video_affiliate_links`:
title, `tags` (defaulting to `[]`), `categoryId` copied from the fetched
snippet; description replaced by `add_affiliate_section`; `defaultLanguage`
copied only when truthy (present and non-empty). -/
def update_snippet (s : Snippet) (newContent : List Char) : UpdateSnippet :=
  { title := s.title
    description := add_affiliate_section s.description newContent
    tags := s.tags.getD []
    categoryId := s.categoryId
    defaultLanguage :=
      match s.defaultLanguage with
      | some l => if l = [] then none else some l
      | none => none }

/-- Result of one upsert in `backup_videos` (backup_descriptions.py
lines 200-236): `status = "new"` or `status = "updated"`. -/
inductive UpsertStatus where
  | NEW
  | UPDATED
  deriving DecidableEq

/-- One row of the `videos` table (`tags` is the JSON-serialized tag list). -/
structure VideoRecord where
  video_id : List Char
  title : List Char
  description : List Char
  published_at : List Char
  category_id : List Char
  tags : List Char
  backed_up_at : List Char
  deriving DecidableEq

/-- The check-then-act upsert of `backup_videos`: `SELECT video_id FROM videos
WHERE video_id = ?`; if a row exists, `UPDATE` every non-key field of the
matching rows, else `INSERT` a new row.  The store is the list of rows. -/
def upsertVideo (db : List VideoRecord) (r : VideoRecord) :
    UpsertStatus × List VideoRecord :=
  match db.find? (fun row => row.video_id == r.video_id) with
  | some _ =>
    (.UPDATED, db.map fun row =>
      if row.video_id == r.video_id then { r with video_id := row.video_id } else row)
  | none => (.NEW, db ++ [r])

/-- The NEW/UPDATED classification sequence of a run: each fetched record is
classified against the store as it evolves. -/
def classifyRun (db : List VideoRecord) : List VideoRecord → List UpsertStatus
  | [] => []
  | v :: rest => (upsertVideo db v).1 :: classifyRun (upsertVideo db v).2 rest

/-- The store after upserting a list of records in order. -/
def dbAfter (db : List VideoRecord) : List VideoRecord → List VideoRecord
  | [] => db
  | v :: rest => dbAfter (upsertVideo db v).2 rest

/-- Number of documents classified NEW. -/
def countNEW : List UpsertStatus → Nat
  | [] => 0
  | .NEW :: rest => countNEW rest + 1
  | .UPDATED :: rest => countNEW rest

/-- Number of documents classified UPDATED. -/
def countUPDATED : List UpsertStatus → Nat
  | [] => 0
  | .NEW :: rest => countUPDATED rest
  | .UPDATED :: rest => countUPDATED rest + 1

/-- Loop state of `backup_videos`: the store plus the `new_count` and
`updated_count` tallies; one iteration of the per-video loop. -/
def upsertStep (acc : List VideoRecord × Nat × Nat) (v : VideoRecord) :
    List VideoRecord × Nat × Nat :=
  match upsertVideo acc.1 v with
  | (.NEW, db') => (db', acc.2.1 + 1, acc.2.2)
  | (.UPDATED, db') => (db', acc.2.1, acc.2.2 + 1)

/-- `for i in range(0, len(video_ids), 50): batch = video_ids[i:i + 50]`:
chunk a list into consecutive batches of at most 50, via an accumulator
holding the current batch reversed. -/
def chunkAcc {α : Type} (acc : List α) : List α → List (List α)
  | [] => if acc.isEmpty then [] else [acc.reverse]
  | x :: rest =>
    if acc.length = 50 then acc.reverse :: chunkAcc [x] rest
    else chunkAcc (x :: acc) rest

/-- The batches of 50 processed by `backup_videos`. -/
def chunks50 {α : Type} (l : List α) : List (List α) := chunkAcc [] l

/-- One row of the `backup_runs` table. -/
structure BackupRun where
  videos_count : Nat
  new_count : Nat
  updated_count : Nat
  notes : List Char
  deriving DecidableEq

/-- All records returned by the per-batch `get_video_details` calls of a run,
for a detail-fetch oracle `detail` mapping a batch of ids to the items the
source returns for it. -/
def fetchedRecords (video_ids : List (List Char))
    (detail : List (List Char) → List VideoRecord) : List VideoRecord :=
  ((chunks50 video_ids).map detail).flatten

/-- `backup_videos` (backup_descriptions.py lines 168-263) from the point the
playlist items are known: abort with no write when the id list is empty
("No videos to backup"); otherwise upsert every fetched record batch by batch
and append exactly one `backup_runs` row `(len(video_ids), new_count,
updated_count, "Full backup")`. -/
def backup_videos (db : List VideoRecord) (runs : List BackupRun)
    (video_ids : List (List Char)) (detail : List (List Char) → List VideoRecord) :
    List VideoRecord × List BackupRun :=
  if video_ids = [] then (db, runs)
  else
    let r := (chunks50 video_ids).foldl
      (fun acc batch => (detail batch).foldl upsertStep acc) (db, 0, 0)
    (r.1, runs ++ [⟨video_ids.length, r.2.1, r.2.2, "Full backup".toList⟩])

/-- One response of the uploads-playlist pagination: a page of items together
with whether a `nextPageToken` is present, or an `HttpError`. -/
inductive PageResp where
  | ok (items : List (List Char)) (hasNext : Bool)
  | fail
  deriving DecidableEq

/-- The `while True` pagination loop of `get_all_channel_videos`
(backup_descriptions.py lines 127-152): accumulate page items; stop when a
page carries no next token; on `HttpError`, `break` with the items collected
so far.  The source is modelled as the stream of its successive responses. -/
def collectPages : List PageResp → List (List Char)
  | [] => []
  | .fail :: _ => []
  | .ok items false :: _ => items
  | .ok items true :: rest => items ++ collectPages rest

/-- `get_all_channel_videos`: an `HttpError` on the channel request
(`Listing`) returns `[]`; otherwise run the pagination loop. -/
def get_all_channel_videos (channelOk : Bool) (pages : List PageResp) :
    List (List Char) :=
  if channelOk then collectPages pages else []

/-- A whole backup run: list the channel videos, then `backup_videos`. -/
def run_backup (db : List VideoRecord) (runs : List BackupRun)
    (channelOk : Bool) (pages : List PageResp)
    (detail : List (List Char) → List VideoRecord) :
    List VideoRecord × List BackupRun :=
  backup_videos db runs (get_all_channel_videos channelOk pages) detail

/-! ### Basic facts about the delimiters and `findOcc` -/

theorem START_eq_END : START_DELIMITER = END_DELIMITER := rfl

theorem START_eq_replicate : START_DELIMITER = List.replicate 14 '~' := rfl

theorem START_length : START_DELIMITER.length = 14 := rfl

theorem END_length : END_DELIMITER.length = 14 := rfl

theorem findOcc_iff {pat s : List Char} {i : Nat} :
    findOcc pat s = some i ↔
      (pat <+: s.drop i ∧ ∀ k, k < i → ¬ pat <+: s.drop k) := by
  induction s generalizing i with
  | nil =>
    simp only [findOcc, List.drop_nil]
    split
    · next h =>
      rw [ List.isPrefixOf_iff_prefix] at h
      constructor
      · intro hi
        have : i = 0 := by injection hi with h'; omega
        exact ⟨h, fun k hk => by omega⟩
      · rintro ⟨-, hmin⟩
        rcases Nat.eq_zero_or_pos i with rfl | hpos
        · rfl
        · exact absurd h (hmin 0 hpos)
    · next h =>
      rw [ List.isPrefixOf_iff_prefix] at h
      constructor
      · intro hi; cases hi
      · rintro ⟨h1, -⟩; exact absurd h1 h
  | cons c rest ih =>
    simp only [findOcc]
    split
    · next h =>
      rw [ List.isPrefixOf_iff_prefix] at h
      constructor
      · intro hi
        have hi0 : i = 0 := by injection hi with h'; omega
        subst hi0
        exact ⟨h, fun k hk => by omega⟩
      · rintro ⟨-, hmin⟩
        rcases Nat.eq_zero_or_pos i with rfl | hpos
        · rfl
        · exact absurd h (hmin 0 hpos)
    · next h =>
      rw [ List.isPrefixOf_iff_prefix] at h
      constructor
      · intro hi
        rcases Option.map_eq_some'.mp hi with ⟨i', hi', rfl⟩
        rcases (ih.mp hi') with ⟨h1, hmin⟩
        refine ⟨h1, fun k hk => ?_⟩
        match k with
        | 0 => simpa using h
        | k' + 1 => simpa using hmin k' (by omega)
      · rintro ⟨h1, hmin⟩
        match i with
        | 0 => exact absurd (by simpa using h1) h
        | i' + 1 =>
          have : findOcc pat rest = some i' :=
            ih.mpr ⟨by simpa using h1, fun k hk => by
              simpa using hmin (k + 1) (by omega)⟩
          simp [this]

theorem findOcc_none_iff {pat s : List Char} :
    findOcc pat s = none ↔ ∀ k, ¬ pat <+: s.drop k := by
  constructor
  · intro h k hk
    classical
    have hex : ∃ k, pat <+: s.drop k := ⟨k, hk⟩
    have hsome : findOcc pat s = some (Nat.find hex) :=
      findOcc_iff.mpr ⟨Nat.find_spec hex, fun j hj => Nat.find_min hex hj⟩
    rw [h] at hsome
    cases hsome
  · intro h
    cases hf : findOcc pat s with
    | none => rfl
    | some i => exact absurd (findOcc_iff.mp hf).1 (h i)

/-! ### Occurrence lemmas -/

theorem occ_append_left {pat l t : List Char} (h : pat <+: l ++ t)
    (hlen : pat.length ≤ l.length) : pat <+: l := by
  rw [List.prefix_iff_eq_take] at h ⊢
  rwa [List.take_append_eq_append_take, Nat.sub_eq_zero_of_le hlen, List.take_zero,
    List.append_nil] at h

theorem occ_mono {pat x y : List Char} (hxy : x <+: y) {k : Nat}
    (h : pat <+: x.drop k) : pat <+: y.drop k := by
  obtain ⟨t, rfl⟩ := hxy
  rw [List.drop_append_eq_append_drop]
  exact h.trans (List.prefix_append _ _)

theorem delim_get {l : List Char} (h : START_DELIMITER <+: l) {t : Nat}
    (ht : t < 14) : l[t]? = some '~' := by
  obtain ⟨u, rfl⟩ := h
  rw [List.getElem?_append_left (by rw [START_length]; exact ht)]
  rw [START_eq_replicate]
  exact List.getElem?_replicate_of_lt ht

theorem not_occ_newline {s : List Char} {p q : Nat} (hq : s[q]? = some '\n')
    (h1 : p ≤ q) (h2 : q < p + 14) : ¬ START_DELIMITER <+: s.drop p := by
  intro h
  have h3 : (s.drop p)[q - p]? = some '~' := delim_get h (by omega)
  rw [List.getElem?_drop, show p + (q - p) = q from by omega, hq] at h3
  exact absurd h3 (by decide)

/-! ### Python strip lemmas -/

theorem dropWhile_self_idem (p : Char → Bool) (l : List Char) :
    List.dropWhile p (List.dropWhile p l) = List.dropWhile p l := by
  induction l with
  | nil => rfl
  | cons c rest ih =>
    by_cases h : p c
    · rw [List.dropWhile_cons_of_pos h]; exact ih
    · simp only [List.dropWhile_cons_of_neg h]

theorem lstrip_idem (s : List Char) : lstripL (lstripL s) = lstripL s := by
  simp [lstripL, dropWhile_self_idem]

theorem rstrip_idem (s : List Char) : rstripL (rstripL s) = rstripL s := by
  simp only [rstripL]
  exact List.rdropWhile_idempotent _ _

theorem rstrip_append_two_nl (x : List Char) :
    rstripL (x ++ ['\n', '\n']) = rstripL x := by
  simp only [rstripL]
  rw [show x ++ ['\n', '\n'] = (x ++ ['\n']) ++ ['\n'] from by simp,
    List.rdropWhile_concat_pos _ _ _ (by decide),
    List.rdropWhile_concat_pos _ _ _ (by decide)]

theorem lstrip_cons_nl (x : List Char) : lstripL ('\n' :: x) = lstripL x := by
  simp [lstripL, List.dropWhile_cons_of_pos, pyIsSpace]

theorem rstrip_cons (a : Char) (l : List Char) :
    rstripL (a :: l) =
      if rstripL l = [] then (if pyIsSpace a then [] else [a])
      else a :: rstripL l := by
  have hrev : rstripL l = [] ↔ (List.dropWhile pyIsSpace l.reverse) = [] := by
    simp [rstripL, List.rdropWhile]
  by_cases h : List.dropWhile pyIsSpace l.reverse = []
  · rw [if_pos (hrev.mpr h)]
    by_cases ha : pyIsSpace a
    · rw [if_pos ha]
      simp only [rstripL, List.rdropWhile, List.reverse_cons, List.dropWhile_append]
      simp [h, List.dropWhile_cons_of_pos ha]
    · rw [if_neg ha]
      simp only [rstripL, List.rdropWhile, List.reverse_cons, List.dropWhile_append]
      simp [h, List.dropWhile_cons_of_neg ha]
  · rw [if_neg (fun hc => h (hrev.mp hc))]
    simp only [rstripL, List.rdropWhile, List.reverse_cons, List.dropWhile_append]
    have hne : (List.dropWhile pyIsSpace l.reverse).isEmpty = false := by
      simp [List.isEmpty_iff, h]
    simp [hne]

theorem strip_nil : stripL [] = [] := rfl

theorem strip_cons_nl (x : List Char) : stripL ('\n' :: x) = stripL x := by
  simp only [stripL, rstrip_cons]
  by_cases h : rstripL x = []
  · rw [if_pos h, if_pos (show pyIsSpace '\n' = true from by decide), h]
  · rw [if_neg h, lstrip_cons_nl]

theorem strip_wrap_nl (C : List Char) :
    stripL ('\n' :: (C ++ ['\n'])) = stripL C := by
  rw [strip_cons_nl]
  simp only [stripL]
  rw [show rstripL (C ++ ['\n']) = rstripL C from by
    simp only [rstripL]
    exact List.rdropWhile_concat_pos _ _ _ (by decide)]

/-! ### The shape of a freshly inserted section -/

theorem findOcc_insert_start {before : List Char} (rest₁ : List Char)
    (hb : ∀ k, ¬ START_DELIMITER <+: before.drop k) :
    findOcc START_DELIMITER
        (before ++ '\n' :: '\n' :: (START_DELIMITER ++ rest₁)) =
      some (before.length + 2) := by
  apply findOcc_iff.mpr
  constructor
  · rw [show before.length + 2 = before.length + 2 from rfl, List.drop_append]
    exact List.prefix_append _ _
  · intro k hk hocc
    by_cases h14 : k + 14 ≤ before.length
    · apply hb k
      rw [List.drop_append_eq_append_drop] at hocc
      apply occ_append_left hocc
      rw [START_length, List.length_drop]
      omega
    · rcases Nat.lt_or_ge k (before.length + 1) with hkb | hkb
      · exact not_occ_newline (q := before.length)
          (by rw [List.getElem?_append_right (Nat.le_refl _), Nat.sub_self]; rfl)
          (by omega) (by omega) hocc
      · have hkeq : k = before.length + 1 := by omega
        subst hkeq
        exact not_occ_newline (q := before.length + 1)
          (by rw [List.getElem?_append_right (by omega),
                Nat.add_sub_cancel_left]; rfl)
          (by omega) (by omega) hocc

theorem findOcc_insert_end {C : List Char} (tail : List Char)
    (hC : ∀ k, ¬ START_DELIMITER <+: C.drop k) :
    findOcc START_DELIMITER
        ('\n' :: (C ++ '\n' :: (START_DELIMITER ++ tail))) =
      some (C.length + 2) := by
  apply findOcc_iff.mpr
  constructor
  · rw [show C.length + 2 = C.length + 1 + 1 from rfl, List.drop_succ_cons,
      show C.length + 1 = C.length + 1 from rfl, List.drop_append,
      List.drop_succ_cons, List.drop_zero]
    exact List.prefix_append _ _
  · intro k hk hocc
    match k with
    | 0 =>
      exact not_occ_newline (q := 0) (by simp) (Nat.le_refl _) (by omega) hocc
    | k' + 1 =>
      rw [List.drop_succ_cons] at hocc
      by_cases h14 : k' + 14 ≤ C.length
      · apply hC k'
        rw [List.drop_append_eq_append_drop] at hocc
        apply occ_append_left hocc
        rw [START_length, List.length_drop]
        omega
      · refine not_occ_newline (s := C ++ '\n' :: (START_DELIMITER ++ tail))
          (q := C.length)
          (by rw [List.getElem?_append_right (Nat.le_refl _), Nat.sub_self]; rfl)
          (by omega) (by omega) hocc

theorem findSection_insert (before C tail : List Char)
    (hb : ∀ k, ¬ START_DELIMITER <+: before.drop k)
    (hC : ∀ k, ¬ START_DELIMITER <+: C.drop k) :
    findSection (before ++ '\n' :: '\n' ::
        (START_DELIMITER ++ '\n' :: (C ++ '\n' :: (START_DELIMITER ++ tail)))) =
      some (before.length + 2, before.length + C.length + 18) := by
  have h1 := findOcc_insert_start ('\n' :: (C ++ '\n' :: (START_DELIMITER ++ tail))) hb
  have hdrop : (before ++ '\n' :: '\n' ::
      (START_DELIMITER ++ '\n' :: (C ++ '\n' :: (START_DELIMITER ++ tail)))).drop
        (before.length + 2 + START_DELIMITER.length) =
      '\n' :: (C ++ '\n' :: (START_DELIMITER ++ tail)) := by
    rw [START_length, show before.length + 2 + 14 = before.length + 16 from by omega,
      List.drop_append, show (16 : Nat) = 14 + 1 + 1 from by norm_num]
    simp only [List.drop_succ_cons]
    exact List.drop_left' START_length
  have h2 := findOcc_insert_end tail hC
  rw [START_length] at hdrop
  simp only [findSection, ← START_eq_END, h1, hdrop, h2, Option.some.injEq,
    Prod.mk.injEq, START_length, true_and]
  omega

theorem split_insert (before C tail : List Char)
    (hb : ∀ k, ¬ START_DELIMITER <+: before.drop k)
    (hC : ∀ k, ¬ START_DELIMITER <+: C.drop k) :
    split_description_around_affiliate_section
        (before ++ '\n' :: '\n' ::
          (START_DELIMITER ++ '\n' :: (C ++ '\n' :: (START_DELIMITER ++ tail)))) =
      (rstripL (before ++ ['\n', '\n']),
       some (stripL ('\n' :: (C ++ ['\n']))),
       lstripL tail) := by
  have hdrop : (before ++ '\n' :: '\n' ::
      (START_DELIMITER ++ '\n' :: (C ++ '\n' :: (START_DELIMITER ++ tail)))).drop
        (before.length + 2 + START_DELIMITER.length) =
      '\n' :: (C ++ '\n' :: (START_DELIMITER ++ tail)) := by
    rw [START_length, show before.length + 2 + 14 = before.length + 16 from by omega,
      List.drop_append, show (16 : Nat) = 14 + 1 + 1 from by norm_num]
    simp only [List.drop_succ_cons]
    exact List.drop_left' START_length
  have htake : (before ++ '\n' :: '\n' ::
      (START_DELIMITER ++ '\n' :: (C ++ '\n' :: (START_DELIMITER ++ tail)))).take
        (before.length + 2) =
      before ++ ['\n', '\n'] := by
    rw [List.take_append, show (2 : Nat) = 1 + 1 from by norm_num]
    simp [List.take_succ_cons]
  have hgrp : ('\n' :: (C ++ '\n' :: (START_DELIMITER ++ tail))).take
      (before.length + C.length + 18 - (before.length + 2 + START_DELIMITER.length)) =
      '\n' :: (C ++ ['\n']) := by
    rw [START_length,
      show before.length + C.length + 18 - (before.length + 2 + 14) = C.length + 1 + 1
        from by omega, List.take_succ_cons, List.take_append]
    simp [List.take_succ_cons]
  have hafter : (before ++ '\n' :: '\n' ::
      (START_DELIMITER ++ '\n' :: (C ++ '\n' :: (START_DELIMITER ++ tail)))).drop
        (before.length + C.length + 18 + START_DELIMITER.length) =
      tail := by
    have h3 := congrArg (List.drop (C.length + 16)) hdrop
    rw [List.drop_drop] at h3
    rw [show before.length + C.length + 18 + START_DELIMITER.length =
        before.length + 2 + START_DELIMITER.length + (C.length + 16) from by
      rw [START_length]; omega, h3,
      show C.length + 16 = C.length + 15 + 1 from by omega, List.drop_succ_cons,
      show C.length + 15 = C.length + (14 + 1) from by omega, ← List.drop_drop,
      List.drop_left, show (14 : Nat) + 1 = 14 + 1 from rfl, List.drop_succ_cons]
    exact List.drop_left' START_length
  simp only [split_description_around_affiliate_section, ← START_eq_END,
    findSection_insert before C tail hb hC, hdrop, htake, hgrp, hafter]

theorem extract_eq_split (d : List Char) :
    extract_affiliate_section d =
      (split_description_around_affiliate_section d).2.1 := by
  unfold extract_affiliate_section split_description_around_affiliate_section
  cases h : findSection d with
  | none => simp
  | some ij => obtain ⟨i, j⟩ := ij; simp

theorem findSection_some_start {s : List Char} {i j : Nat}
    (h : findSection s = some (i, j)) : findOcc START_DELIMITER s = some i := by
  unfold findSection at h
  split at h
  · exact absurd h (by simp)
  next i' heq =>
    split at h
    · exact absurd h (by simp)
    next k' heq2 =>
      simp only [Option.some.injEq, Prod.mk.injEq] at h
      rw [heq, h.1]

theorem split_before_rstripped (B : List Char) :
    rstripL (split_description_around_affiliate_section B).1 =
      (split_description_around_affiliate_section B).1 := by
  unfold split_description_around_affiliate_section
  cases h : findSection B with
  | none => simp [rstrip_idem]
  | some ij => obtain ⟨i, j⟩ := ij; simp [rstrip_idem]

theorem split_after_lstripped (B : List Char) :
    lstripL (split_description_around_affiliate_section B).2.2 =
      (split_description_around_affiliate_section B).2.2 := by
  unfold split_description_around_affiliate_section
  cases h : findSection B with
  | none => simp [lstripL]
  | some ij => obtain ⟨i, j⟩ := ij; simp [lstrip_idem]

theorem noOcc_split_before (B : List Char)
    (hB : findOcc START_DELIMITER B = none ∨ (findSection B).isSome) :
    ∀ k, ¬ START_DELIMITER <+: (split_description_around_affiliate_section B).1.drop k := by
  intro k hk
  rcases hB with hnone | hsome
  · have hsec : findSection B = none := by simp [findSection, hnone]
    simp only [split_description_around_affiliate_section, hsec] at hk
    exact findOcc_none_iff.mp hnone k (occ_mono ( List.rdropWhile_prefix _ _) hk)
  · rw [Option.isSome_iff_exists] at hsome
    obtain ⟨⟨i, j⟩, hij⟩ := hsome
    have hsB := findSection_some_start hij
    simp only [split_description_around_affiliate_section, hij] at hk
    have h1 : START_DELIMITER <+: (B.take i).drop k :=
      occ_mono ( List.rdropWhile_prefix _ _) hk
    have hki : k + 14 ≤ i := by
      have hlen := h1.length_le
      rw [START_length, List.length_drop, List.length_take] at hlen
      omega
    have h2 : START_DELIMITER <+: B.drop k := by
      rw [List.drop_take] at h1
      exact h1.trans ( List.take_prefix _ _)
    exact (findOcc_iff.mp hsB).2 k (by omega) h2

theorem add_eq_nested (B C : List Char) :
    add_affiliate_section B C =
      (split_description_around_affiliate_section B).1 ++ '\n' :: '\n' ::
        (START_DELIMITER ++ '\n' :: (C ++ '\n' :: (START_DELIMITER ++
          (if (split_description_around_affiliate_section B).2.2 = [] then []
           else '\n' :: '\n' :: (split_description_around_affiliate_section B).2.2)))) := by
  simp only [add_affiliate_section, ← START_eq_END, List.append_assoc, List.cons_append]

/-! ### Claims C2 and C3: the amended statements -/

/-- C2 amended: when the new content contains no delimiter occurrence and the
body either contains no delimiter occurrence or contains a complete section,
`add_affiliate_section` is idempotent. -/
theorem C2_amended_idempotent (B C : List Char)
    (hC : findOcc START_DELIMITER C = none)
    (hB : findOcc START_DELIMITER B = none ∨ (findSection B).isSome) :
    add_affiliate_section (add_affiliate_section B C) C =
      add_affiliate_section B C := by
  have hCocc : ∀ k, ¬ START_DELIMITER <+: C.drop k := findOcc_none_iff.mp hC
  have hbocc := noOcc_split_before B hB
  have hsplit := split_insert (split_description_around_affiliate_section B).1 C
    (if (split_description_around_affiliate_section B).2.2 = [] then []
     else '\n' :: '\n' :: (split_description_around_affiliate_section B).2.2)
    hbocc hCocc
  have hbefore_r : rstripL ((split_description_around_affiliate_section B).1 ++
      ['\n', '\n']) = (split_description_around_affiliate_section B).1 := by
    rw [rstrip_append_two_nl]
    exact split_before_rstripped B
  have hafter_l : lstripL (if (split_description_around_affiliate_section B).2.2 = []
      then [] else '\n' :: '\n' :: (split_description_around_affiliate_section B).2.2) =
      (split_description_around_affiliate_section B).2.2 := by
    by_cases ha : (split_description_around_affiliate_section B).2.2 = []
    · simp [ha, lstripL]
    · rw [if_neg ha, lstrip_cons_nl, lstrip_cons_nl]
      exact split_after_lstripped B
  conv_lhs => rw [add_eq_nested B C, add_eq_nested]
  rw [hsplit]
  simp only [hbefore_r, hafter_l]
  rw [add_eq_nested B C]

/-- C2 witness: idempotence at the concrete body `"Hello"` and content `"x"`. -/
theorem C2_amended_witness :
    add_affiliate_section
        (add_affiliate_section "Hello".toList "x".toList) "x".toList =
      add_affiliate_section "Hello".toList "x".toList :=
  C2_amended_idempotent _ _ (by decide) (Or.inl (by decide))

/-- C3 amended: under the same hypotheses as the amended C2, extracting from
the upserted body returns the trimmed content. -/
theorem C3_amended_roundtrip (B C : List Char)
    (hC : findOcc START_DELIMITER C = none)
    (hB : findOcc START_DELIMITER B = none ∨ (findSection B).isSome) :
    extract_affiliate_section (add_affiliate_section B C) = some (stripL C) := by
  have hCocc : ∀ k, ¬ START_DELIMITER <+: C.drop k := findOcc_none_iff.mp hC
  have hbocc := noOcc_split_before B hB
  rw [extract_eq_split, add_eq_nested B C, split_insert _ _ _ hbocc hCocc]
  simp [strip_wrap_nl]

/-- C3 witness: round-trip at the concrete body `"Hello"` and content `"x"`. -/
theorem C3_amended_witness :
    extract_affiliate_section (add_affiliate_section "Hello".toList "x".toList) =
      some (stripL "x".toList) :=
  C3_amended_roundtrip _ _ (by decide) (Or.inl (by decide))

/-! ### Unfolding lemmas for `removeSpans` -/

theorem findSection_pos {s : List Char} {i j : Nat}
    (h : findSection s = some (i, j)) : 0 < s.length := by
  cases s with
  | nil =>
    have h1 := findSection_some_start h
    rw [show findOcc START_DELIMITER ([] : List Char) = none from by decide] at h1
    cases h1
  | cons c rest => simp

theorem removeSpansFuel_congr : ∀ f₁ f₂ s, s.length < f₁ → s.length < f₂ →
    removeSpansFuel f₁ s = removeSpansFuel f₂ s := by
  intro f₁
  induction f₁ with
  | zero => intro f₂ s h1 h2; omega
  | succ f ih =>
    intro f₂ s h1 h2
    obtain ⟨f₂', rfl⟩ : ∃ f₂', f₂ = f₂' + 1 := ⟨f₂ - 1, by omega⟩
    simp only [removeSpansFuel]
    cases hs : findSection s with
    | none => rfl
    | some ij =>
      obtain ⟨i, j⟩ := ij
      simp only [hs]
      have hpos := findSection_pos hs
      congr 1
      exact ih f₂' _ (by rw [List.length_drop, END_length]; omega)
        (by rw [List.length_drop, END_length]; omega)

theorem removeSpans_none {s : List Char} (h : findSection s = none) :
    removeSpans s = s := by
  unfold removeSpans
  simp only [removeSpansFuel, h]

theorem removeSpans_some {s : List Char} {i j : Nat}
    (h : findSection s = some (i, j)) :
    removeSpans s = s.take i ++ removeSpans (s.drop (j + END_DELIMITER.length)) := by
  unfold removeSpans
  conv_lhs => simp only [removeSpansFuel, h]
  congr 1
  apply removeSpansFuel_congr
  · have hpos := findSection_pos h
    rw [List.length_drop, END_length]
    omega
  · omega

/-! ### Commutation of strip with newline collapsing -/

theorem emitNl_replicate (k : Nat) :
    emitNl k = List.replicate (if 3 ≤ k then 2 else k) '\n' := by
  unfold emitNl
  split <;> rfl

theorem lstrip_replicate_nl (m : Nat) (t : List Char) :
    lstripL (List.replicate m '\n' ++ t) = lstripL t := by
  induction m with
  | zero => rfl
  | succ m ih =>
    rw [List.replicate_succ, List.cons_append, lstripL,
      List.dropWhile_cons_of_pos (by decide)]
    exact ih

theorem lstrip_emitNl (k : Nat) (t : List Char) :
    lstripL (emitNl k ++ t) = lstripL t := by
  rw [emitNl_replicate, lstrip_replicate_nl]

theorem rstrip_append_general (x y : List Char) :
    rstripL (x ++ y) = if rstripL y = [] then rstripL x else x ++ rstripL y := by
  have hrev : (rstripL y = []) ↔ (List.dropWhile pyIsSpace y.reverse = []) := by
    simp [rstripL, List.rdropWhile]
  by_cases h : List.dropWhile pyIsSpace y.reverse = []
  · rw [if_pos (hrev.mpr h)]
    simp only [rstripL, List.rdropWhile, List.reverse_append, List.dropWhile_append]
    simp [h]
  · rw [if_neg (fun hc => h (hrev.mp hc))]
    simp only [rstripL, List.rdropWhile, List.reverse_append, List.dropWhile_append]
    have hne : (List.dropWhile pyIsSpace y.reverse).isEmpty = false := by
      simp [List.isEmpty_iff, h]
    simp [hne]

theorem rstrip_emitNl (k : Nat) : rstripL (emitNl k) = [] := by
  rw [emitNl_replicate, rstripL, List.rdropWhile_eq_nil_iff]
  intro x hx
  rw [List.eq_of_mem_replicate hx]
  decide

theorem collapseAux_ne_nil {s : List Char} (h : s ≠ []) (k : Nat) :
    collapseAux k s ≠ [] := by
  induction s generalizing k with
  | nil => exact absurd rfl h
  | cons c rest ih =>
    simp only [collapseAux]
    by_cases hc : c = '\n'
    · rw [if_pos hc]
      by_cases hr : rest = []
      · subst hr
        simp only [collapseAux, emitNl_replicate]
        split
        · simp
        · simp [List.replicate_succ]
      · exact ih hr (k + 1)
    · rw [if_neg hc]
      intro hcontra
      rcases List.append_eq_nil.mp hcontra with ⟨-, h2⟩
      cases h2

theorem lstrip_collapseAux (k : Nat) (s : List Char) :
    lstripL (collapseAux k s) = collapseAux 0 (lstripL s) := by
  induction s generalizing k with
  | nil =>
    have h1 : lstripL (collapseAux k []) = lstripL (emitNl k ++ []) := by
      simp [collapseAux]
    rw [h1, lstrip_emitNl]
    rfl
  | cons c rest ih =>
    simp only [collapseAux]
    by_cases hc : c = '\n'
    · subst hc
      rw [if_pos rfl, ih (k + 1), lstrip_cons_nl]
    · rw [if_neg hc, lstrip_emitNl]
      by_cases hw : pyIsSpace c
      · have e1 : lstripL (c :: collapseAux 0 rest) = lstripL (collapseAux 0 rest) := by
          simp [lstripL, List.dropWhile_cons_of_pos hw]
        have e2 : lstripL (c :: rest) = lstripL rest := by
          simp [lstripL, List.dropWhile_cons_of_pos hw]
        rw [e1, e2, ih 0]
      · have e1 : lstripL (c :: collapseAux 0 rest) = c :: collapseAux 0 rest := by
          simp [lstripL, List.dropWhile_cons_of_neg hw]
        have e2 : lstripL (c :: rest) = c :: rest := by
          simp [lstripL, List.dropWhile_cons_of_neg hw]
        rw [e1, e2]
        simp only [collapseAux, if_neg hc]
        rfl

theorem rstrip_collapseAux (s : List Char) : ∀ k,
    rstripL (collapseAux k s) =
      if rstripL s = [] then [] else collapseAux k (rstripL s) := by
  induction s with
  | nil =>
    intro k
    rw [if_pos (by simp [rstripL])]
    simp only [collapseAux]
    exact rstrip_emitNl k
  | cons c rest ih =>
    intro k
    simp only [collapseAux]
    by_cases hc : c = '\n'
    · subst hc
      have hnl : pyIsSpace '\n' = true := by decide
      rw [if_pos rfl, ih (k + 1), rstrip_cons]
      by_cases hr : rstripL rest = []
      · simp [hr, hnl]
      · simp [hr, collapseAux]
    · rw [if_neg hc, rstrip_append_general, rstrip_emitNl, rstrip_cons, ih 0,
        rstrip_cons]
      by_cases hr : rstripL rest = []
      · by_cases hw : pyIsSpace c
        · simp [hr, hw]
        · simp [hr, hw, collapseAux, hc, emitNl]
      · have hnn : collapseAux 0 (rstripL rest) ≠ [] := collapseAux_ne_nil hr 0
        by_cases hw : pyIsSpace c
        · simp [hr, hnn, collapseAux, hc]
        · simp [hr, hnn, collapseAux, hc]

theorem strip_collapse_comm (s : List Char) :
    stripL (collapseNewlines s) = collapseNewlines (stripL s) := by
  unfold collapseNewlines stripL
  rw [rstrip_collapseAux s 0]
  by_cases hr : rstripL s = []
  · rw [if_pos hr, hr]
    simp [lstripL, collapseAux, emitNl]
  · rw [if_neg hr]
    exact lstrip_collapseAux 0 (rstripL s)

/-! ### Claim C4 amended, and claim C5 -/

/-- C4 amended: `remove_affiliate_section` deletes the first `START…END` span
and then recursively every further span of the remainder (as `re.sub` with no
count does); when the body contains exactly one span — no delimiter occurrence
after the matched `END` marker — the text before the first `START` and after
the matched `END` is preserved up to newline-collapsing and end-trimming. -/
theorem C4_amended_remove :
    (∀ (B : List Char) (i j : Nat), findSection B = some (i, j) →
       removeSpans B = B.take i ++ removeSpans (B.drop (j + END_DELIMITER.length))) ∧
    (∀ (B : List Char) (i j : Nat), findSection B = some (i, j) →
       findOcc START_DELIMITER (B.drop (j + END_DELIMITER.length)) = none →
       remove_affiliate_section B =
         stripL (collapseNewlines (B.take i ++ B.drop (j + END_DELIMITER.length)))) := by
  constructor
  · intro B i j h
    exact removeSpans_some h
  · intro B i j h hrest
    have hnone : findSection (B.drop (j + END_DELIMITER.length)) = none := by
      simp [findSection, hrest]
    unfold remove_affiliate_section
    rw [removeSpans_some h, removeSpans_none hnone]
    exact (strip_collapse_comm _).symm

/-- C4 amended witness: a body with a single span, its text before and after
preserved up to collapsing and trimming. -/
theorem C4_amended_witness :
    remove_affiliate_section "a\n~~~~~~~~~~~~~~\nx\n~~~~~~~~~~~~~~\nb".toList =
      stripL (collapseNewlines
        ("a\n~~~~~~~~~~~~~~\nx\n~~~~~~~~~~~~~~\nb".toList.take 2 ++
         "a\n~~~~~~~~~~~~~~\nx\n~~~~~~~~~~~~~~\nb".toList.drop (19 + END_DELIMITER.length))) :=
  C4_amended_remove.2 _ 2 19 (by decide) (by decide)

/-- C5: on a body with no delimiter pair, `extract_affiliate_section` returns
`none` and `remove_affiliate_section` is exactly trim-after-collapse. -/
theorem C5_no_section (B : List Char) (h : findSection B = none) :
    extract_affiliate_section B = none ∧
    remove_affiliate_section B = stripL (collapseNewlines B) := by
  constructor
  · simp [extract_affiliate_section, h]
  · unfold remove_affiliate_section
    rw [removeSpans_none h]
    exact (strip_collapse_comm _).symm

/-- C5 witness: concrete body with no delimiter pair. -/
theorem C5_no_section_witness :
    extract_affiliate_section "a\n\n\n\nb   ".toList = none ∧
    remove_affiliate_section "a\n\n\n\nb   ".toList =
      stripL (collapseNewlines "a\n\n\n\nb   ".toList) :=
  C5_no_section _ (by decide)

/-! ### Claim C1: the position-preserving upsert -/

/-- C1: for every body `B` and content `C`, `add_affiliate_section` returns
`before ++ "\n\n" ++ START ++ "\n" ++ C ++ "\n" ++ END`, followed by
`"\n\n" ++ after` exactly when `after` is non-empty, where `(before, _, after)`
is `split_description_around_affiliate_section B`; and the concrete
Hello/World scenario rewrites the old section to the new content in place. -/
theorem C1_upsert_position_preserving :
    (∀ B C : List Char,
      add_affiliate_section B C =
        (split_description_around_affiliate_section B).1 ++ '\n' :: '\n' ::
          START_DELIMITER ++ '\n' :: C ++ '\n' :: END_DELIMITER ++
          (if (split_description_around_affiliate_section B).2.2 = [] then []
           else '\n' :: '\n' :: (split_description_around_affiliate_section B).2.2)) ∧
    add_affiliate_section
        "Hello\n\n~~~~~~~~~~~~~~\nold content\n~~~~~~~~~~~~~~\n\nWorld".toList
        "new content".toList =
      "Hello\n\n~~~~~~~~~~~~~~\nnew content\n~~~~~~~~~~~~~~\n\nWorld".toList :=
  ⟨fun _ _ => rfl, by decide⟩

/-! ### Claims C2 and C3: counterexamples to the unconditional statements -/

/-- C2 counterexample: for the body consisting of a single dangling
`START_DELIMITER` occurrence and content `"x"`, applying
`add_affiliate_section` twice does not equal applying it once. -/
theorem C2_counterexample :
    add_affiliate_section
        (add_affiliate_section "~~~~~~~~~~~~~~".toList "x".toList) "x".toList ≠
      add_affiliate_section "~~~~~~~~~~~~~~".toList "x".toList := by decide

/-- C3 counterexample: for the same dangling-delimiter body and content `"x"`,
extracting from the upserted body yields `""`, not `trim "x"`. -/
theorem C3_counterexample :
    extract_affiliate_section
        (add_affiliate_section "~~~~~~~~~~~~~~".toList "x".toList) ≠
      some (stripL "x".toList) := by decide

/-! ### Claim C4: counterexample to removal of only the first span -/

/-- C4 counterexample: on a body with two delimited spans, the first span
starts at index 2 and its `END` marker at index 19, yet
`remove_affiliate_section` does not equal the collapse-and-trim of the body
with only that first span (indices 2 to 32) deleted — the second span is
deleted as well. -/
theorem C4_counterexample :
    findSection
        "a\n~~~~~~~~~~~~~~\nx\n~~~~~~~~~~~~~~\nb\n~~~~~~~~~~~~~~\ny\n~~~~~~~~~~~~~~\nc".toList
      = some (2, 19) ∧
    remove_affiliate_section
        "a\n~~~~~~~~~~~~~~\nx\n~~~~~~~~~~~~~~\nb\n~~~~~~~~~~~~~~\ny\n~~~~~~~~~~~~~~\nc".toList ≠
      stripL (collapseNewlines
        ("a\n~~~~~~~~~~~~~~\nx\n~~~~~~~~~~~~~~\nb\n~~~~~~~~~~~~~~\ny\n~~~~~~~~~~~~~~\nc".toList.take 2 ++
         "a\n~~~~~~~~~~~~~~\nx\n~~~~~~~~~~~~~~\nb\n~~~~~~~~~~~~~~\ny\n~~~~~~~~~~~~~~\nc".toList.drop 33)) := by
  constructor
  · decide
  · decide

/-! ### Claim C6: the write-back frame -/

/-- C6: the written snippet copies title and categoryId from the fetched one,
copies present tags verbatim (defaulting to `[]` when absent), keeps a present
non-empty language tag, and differs only in the description, which becomes
`add_affiliate_section` of the fetched description. -/
theorem C6_frame_preservation :
    (∀ (s : Snippet) (C : List Char),
      (update_snippet s C).title = s.title ∧
      (update_snippet s C).categoryId = s.categoryId ∧
      (update_snippet s C).tags = s.tags.getD [] ∧
      (update_snippet s C).description = add_affiliate_section s.description C) ∧
    (∀ (s : Snippet) (C : List Char) (tg : List (List Char)),
      s.tags = some tg → (update_snippet s C).tags = tg) ∧
    (∀ (s : Snippet) (C l : List Char),
      s.defaultLanguage = some l → l ≠ [] →
      (update_snippet s C).defaultLanguage = some l) := by
  refine ⟨fun s C => ⟨rfl, rfl, rfl, rfl⟩, ?_, ?_⟩
  · intro s C tg h
    simp [update_snippet, h]
  · intro s C l h hne
    simp [update_snippet, h, hne]

/-- C6 witness: a concrete snippet keeps its tags and language tag. -/
theorem C6_frame_witness :
    (update_snippet
      ⟨"t".toList, "body".toList, some ["a".toList], "22".toList, some "en".toList⟩
      "x".toList).tags = ["a".toList] ∧
    (update_snippet
      ⟨"t".toList, "body".toList, some ["a".toList], "22".toList, some "en".toList⟩
      "x".toList).defaultLanguage = some "en".toList :=
  ⟨C6_frame_preservation.2.1 _ _ _ rfl,
   C6_frame_preservation.2.2 _ _ _ rfl (by decide)⟩

/-! ### Claim C7: upsert classification -/

/-- C7: when no row with the record's identifier exists, `upsertVideo` returns
`NEW` and appends the new row; when one exists it returns `UPDATED` and
overwrites every non-key field of the matching rows; from an empty store, a
first upsert is `NEW` and a second upsert with the same identifier is
`UPDATED`, the stored row then carrying exactly the second call's fields. -/
theorem C7_upsert_classification :
    (∀ (db : List VideoRecord) (r : VideoRecord),
      db.find? (fun row => row.video_id == r.video_id) = none →
      upsertVideo db r = (.NEW, db ++ [r])) ∧
    (∀ (db : List VideoRecord) (r row₀ : VideoRecord),
      db.find? (fun row => row.video_id == r.video_id) = some row₀ →
      upsertVideo db r = (.UPDATED, db.map fun row =>
        if row.video_id == r.video_id then { r with video_id := row.video_id }
        else row)) ∧
    (∀ r₁ r₂ : VideoRecord, r₁.video_id = r₂.video_id →
      upsertVideo [] r₁ = (.NEW, [r₁]) ∧
      upsertVideo [r₁] r₂ = (.UPDATED, [r₂])) := by
  refine ⟨?_, ?_, ?_⟩
  · intro db r h
    simp [upsertVideo, h]
  · intro db r row₀ h
    simp [upsertVideo, h]
  · intro r₁ r₂ hid
    constructor
    · simp [upsertVideo]
    · have hfind : [r₁].find? (fun row => row.video_id == r₂.video_id) = some r₁ := by
        simp [List.find?, hid]
      simp [upsertVideo, hfind, hid]

/-- C7 witness: concrete NEW-then-UPDATED sequence from the empty store. -/
theorem C7_upsert_witness :
    upsertVideo []
        ⟨"v1".toList, "t1".toList, "d1".toList, "p1".toList, "c1".toList,
         "[]".toList, "b1".toList⟩ =
      (.NEW, [⟨"v1".toList, "t1".toList, "d1".toList, "p1".toList, "c1".toList,
        "[]".toList, "b1".toList⟩]) ∧
    upsertVideo
        [⟨"v1".toList, "t1".toList, "d1".toList, "p1".toList, "c1".toList,
          "[]".toList, "b1".toList⟩]
        ⟨"v1".toList, "t2".toList, "d2".toList, "p2".toList, "c2".toList,
         "[\"x\"]".toList, "b2".toList⟩ =
      (.UPDATED, [⟨"v1".toList, "t2".toList, "d2".toList, "p2".toList, "c2".toList,
        "[\"x\"]".toList, "b2".toList⟩]) :=
  C7_upsert_classification.2.2 _ _ rfl

/-! ### Claim C8: the backup run record -/

theorem foldl_upsertStep (recs : List VideoRecord) :
    ∀ (db : List VideoRecord) (n u : Nat),
      recs.foldl upsertStep (db, n, u) =
        (dbAfter db recs, n + countNEW (classifyRun db recs),
         u + countUPDATED (classifyRun db recs)) := by
  induction recs with
  | nil =>
    intro db n u
    simp [dbAfter, classifyRun, countNEW, countUPDATED]
  | cons v rest ih =>
    intro db n u
    rw [List.foldl_cons]
    rcases hv : upsertVideo db v with ⟨st, db'⟩
    cases st
    · rw [show upsertStep (db, n, u) v = (db', n + 1, u) from by
        simp [upsertStep, hv]]
      rw [ih db' (n + 1) u]
      simp only [classifyRun, dbAfter, hv, countNEW, countUPDATED, Prod.mk.injEq,
        true_and, and_true]
      omega
    · rw [show upsertStep (db, n, u) v = (db', n, u + 1) from by
        simp [upsertStep, hv]]
      rw [ih db' n (u + 1)]
      simp only [classifyRun, dbAfter, hv, countNEW, countUPDATED, Prod.mk.injEq,
        true_and, and_true]
      omega

theorem foldl_chunks (LL : List (List (List Char)))
    (detail : List (List Char) → List VideoRecord) :
    ∀ acc, LL.foldl (fun acc batch => (detail batch).foldl upsertStep acc) acc =
      ((LL.map detail).flatten).foldl upsertStep acc := by
  induction LL with
  | nil => intro acc; rfl
  | cons b rest ih =>
    intro acc
    simp only [List.foldl_cons, List.map_cons, List.flatten_cons, List.foldl_append]
    exact ih _

/-- C8: for a run that reaches the upsert phase (a non-empty id list), exactly
one run record is appended after all upserts, carrying the number of listed
identifiers and the NEW/UPDATED classification counts; a run that aborts early
with no ids appends no record. -/
theorem C8_run_record :
    (∀ (db : List VideoRecord) (runs : List BackupRun)
       (video_ids : List (List Char)) (detail : List (List Char) → List VideoRecord),
      video_ids ≠ [] →
      backup_videos db runs video_ids detail =
        (dbAfter db (fetchedRecords video_ids detail),
         runs ++ [⟨video_ids.length,
           countNEW (classifyRun db (fetchedRecords video_ids detail)),
           countUPDATED (classifyRun db (fetchedRecords video_ids detail)),
           "Full backup".toList⟩])) ∧
    (∀ (db : List VideoRecord) (runs : List BackupRun)
       (detail : List (List Char) → List VideoRecord),
      backup_videos db runs [] detail = (db, runs)) := by
  constructor
  · intro db runs ids detail h
    simp only [backup_videos, if_neg h]
    rw [foldl_chunks (chunks50 ids) detail (db, 0, 0)]
    rw [show ((chunks50 ids).map detail).flatten = fetchedRecords ids detail from rfl]
    rw [foldl_upsertStep (fetchedRecords ids detail) db 0 0]
    simp
  · intro db runs detail
    simp [backup_videos]

/-- C8 witness: ten listed documents, seven new and three updated, produce the
run record `(10, 7, 3)`. -/
theorem C8_run_record_witness :
    (backup_videos
      [⟨"v7".toList, "t".toList, "d".toList, "p".toList, "c".toList, "[]".toList, "b".toList⟩,
       ⟨"v8".toList, "t".toList, "d".toList, "p".toList, "c".toList, "[]".toList, "b".toList⟩,
       ⟨"v9".toList, "t".toList, "d".toList, "p".toList, "c".toList, "[]".toList, "b".toList⟩]
      []
      ["v0".toList, "v1".toList, "v2".toList, "v3".toList, "v4".toList,
       "v5".toList, "v6".toList, "v7".toList, "v8".toList, "v9".toList]
      (fun batch => batch.map (fun v =>
        ⟨v, "t".toList, "d".toList, "p".toList, "c".toList, "[]".toList, "b2".toList⟩))).2 =
      [⟨10, 7, 3, "Full backup".toList⟩] := by
  rw [C8_run_record.1 _ _ _ _ (by decide)]
  decide

/-! ### Claim C9: failures while listing and paginating -/

/-- C9 counterexample: a run whose pagination fails after one page still
upserts the page fetched before the failure and still writes a run record —
the run does not abort before the upsert phase. -/
theorem C9_counterexample :
    run_backup [] [] true [PageResp.ok ["a".toList] true, PageResp.fail]
        (fun batch => batch.map (fun v =>
          ⟨v, "t".toList, "d".toList, "p".toList, "c".toList, "[]".toList, "b".toList⟩)) =
      ([⟨"a".toList, "t".toList, "d".toList, "p".toList, "c".toList, "[]".toList, "b".toList⟩],
       [⟨1, 1, 0, "Full backup".toList⟩]) ∧
    (run_backup [] [] true [PageResp.ok ["a".toList] true, PageResp.fail]
        (fun batch => batch.map (fun v =>
          ⟨v, "t".toList, "d".toList, "p".toList, "c".toList, "[]".toList, "b".toList⟩))).1 ≠
      [] := by
  constructor
  · decide
  · decide

theorem collectPages_until_fail : ∀ (p1 p2 : List PageResp),
    (∀ p ∈ p1, ∃ its, p = PageResp.ok its true) →
    collectPages (p1 ++ PageResp.fail :: p2) = collectPages p1 := by
  intro p1
  induction p1 with
  | nil =>
    intro p2 hall
    simp [collectPages]
  | cons p rest ih =>
    intro p2 hall
    obtain ⟨its, rfl⟩ := hall p (List.mem_cons_self _ _)
    simp only [List.cons_append, collectPages, List.append_eq]
    rw [ih p2 (fun q hq => hall q (List.mem_cons_of_mem _ hq))]

/-- C9 amended: a failure on the channel request (`Listing`) aborts the run
with no upsert and no run record; a failure while paginating stops the fetch,
but the pages fetched before the failure are still upserted — the run then
proceeds exactly like a backup of those documents. -/
theorem C9_amended_failures :
    (∀ (db : List VideoRecord) (runs : List BackupRun) (pages : List PageResp)
       (detail : List (List Char) → List VideoRecord),
      run_backup db runs false pages detail = (db, runs)) ∧
    (∀ (db : List VideoRecord) (runs : List BackupRun)
       (pages₁ pages₂ : List PageResp)
       (detail : List (List Char) → List VideoRecord),
      (∀ p ∈ pages₁, ∃ its, p = PageResp.ok its true) →
      run_backup db runs true (pages₁ ++ PageResp.fail :: pages₂) detail =
        backup_videos db runs (collectPages pages₁) detail) := by
  constructor
  · intro db runs pages detail
    simp [run_backup, get_all_channel_videos, backup_videos]
  · intro db runs p1 p2 detail hall
    unfold run_backup get_all_channel_videos
    rw [if_pos rfl, collectPages_until_fail p1 p2 hall]

/-- C9 amended witness: with one successful page and then a failure, the run
equals a backup of that page's documents; with a failed channel listing,
nothing happens. -/
theorem C9_amended_witness :
    run_backup [] [] true [PageResp.ok ["a".toList] true, PageResp.fail]
        (fun batch => batch.map (fun v =>
          ⟨v, "t".toList, "d".toList, "p".toList, "c".toList, "[]".toList, "b".toList⟩)) =
      backup_videos [] [] (collectPages [PageResp.ok ["a".toList] true])
        (fun batch => batch.map (fun v =>
          ⟨v, "t".toList, "d".toList, "p".toList, "c".toList, "[]".toList, "b".toList⟩)) :=
  C9_amended_failures.2 [] [] [PageResp.ok ["a".toList] true] [] _
    (fun p hp => by
      rw [List.mem_singleton] at hp
      exact ⟨["a".toList], hp⟩)

/-! ### Claim C10: identical delimiters and single occurrences -/

/-- C10: the start and end markers are the identical 14-character tilde
literal; a body in which the literal occurs at most once (at most one
occurrence position, overlaps counted) has no recognized section — extraction
is absent and the split is `(body right-trimmed, absent, empty)`; a body of 28
consecutive tildes is a section with empty trimmed content. -/
theorem C10_identical_delimiters :
    (START_DELIMITER = END_DELIMITER ∧ START_DELIMITER.length = 14) ∧
    (∀ B : List Char,
      (∀ p q, START_DELIMITER <+: B.drop p → START_DELIMITER <+: B.drop q → p = q) →
      extract_affiliate_section B = none ∧
      split_description_around_affiliate_section B = (rstripL B, none, [])) ∧
    (extract_affiliate_section (List.replicate 28 '~') = some [] ∧
     split_description_around_affiliate_section (List.replicate 28 '~') =
       ([], some [], [])) := by
  refine ⟨⟨rfl, rfl⟩, ?_, by decide⟩
  intro B huniq
  have hsec : findSection B = none := by
    cases h1 : findOcc START_DELIMITER B with
    | none => simp [findSection, h1]
    | some i =>
      cases h2 : findOcc END_DELIMITER (B.drop (i + START_DELIMITER.length)) with
      | none => simp [findSection, h1, h2]
      | some k =>
        exfalso
        have hocc1 : START_DELIMITER <+: B.drop i := (findOcc_iff.mp h1).1
        have hocc2 : START_DELIMITER <+:
            (B.drop (i + START_DELIMITER.length)).drop k := (findOcc_iff.mp h2).1
        rw [List.drop_drop] at hocc2
        have heq := huniq i (i + START_DELIMITER.length + k) hocc1 hocc2
        rw [START_length] at heq
        omega
  constructor
  · simp [extract_affiliate_section, hsec]
  · simp [split_description_around_affiliate_section, hsec]

/-- C10 witness: a body with no delimiter occurrence at all. -/
theorem C10_witness :
    extract_affiliate_section "hello".toList = none ∧
    split_description_around_affiliate_section "hello".toList =
      (rstripL "hello".toList, none, []) :=
  C10_identical_delimiters.2.1 "hello".toList
    (fun p q hp _ => absurd hp (findOcc_none_iff.mp (by decide) p))

end YTUpd
